import Mathlib

/-!
Verification of the Neuroscope extractor core
(`spikeextractors/extractors/neuroscopeextractors/neuroscopeextractors.py`).

The `.res`/`.clu` text files are modelled as the lists of integers obtained
from `np.loadtxt(..., dtype=np.int64, usecols=0, ndmin=1)`, one entry per
line.  NumPy array operations used by the source are embedded as functions
on `List Int`:

* `npArange n` models `np.arange(n)` (empty for non-positive `n`);
* `npUnique l` models `np.unique(l)` (sorted distinct values);
* `npNotEqArr x y` models the Python expression `not (x == y)` on two
  integer arrays, including NumPy broadcasting: comparing arrays of equal
  length yields an element-wise boolean array, a length-1 array broadcasts
  against the other operand, and incompatible shapes yield the scalar
  `False` (NumPy 1.x behaviour, with a DeprecationWarning).  Applying `not`
  to a boolean array of more than one element raises `ValueError`; the
  truth value of an empty array is `False`.
* `npNonzeroEq tail v` models `(tail == v).nonzero()` (the ascending list
  of positions where `tail` equals `v`);
* `npTakeIdx l idxs` models fancy indexing `l[idxs]`, raising `IndexError`
  on an out-of-range position;
* `npArgsort l` models `np.argsort(l)`; ties are modelled as resolved in
  favour of the earlier position (a stable argsort);
* `npIndex l idxs` is fancy indexing by known-in-range positions.

Python exceptions are represented by the `PyError` type and fallible code
returns `Except PyError`.
-/

/-- Python exception kinds raised (implicitly) by the source. -/
inductive PyError where
  | valueError
  | indexError
  | assertionError
deriving DecidableEq

instance {ε α : Type} [DecidableEq ε] [DecidableEq α] : DecidableEq (Except ε α) := fun x y =>
  match x, y with
  | .error a, .error b =>
    if h : a = b then .isTrue (by rw [h]) else .isFalse (by intro he; cases he; exact h rfl)
  | .error _, .ok _ => .isFalse (by intro h; cases h)
  | .ok _, .error _ => .isFalse (by intro h; cases h)
  | .ok a, .ok b =>
    if h : a = b then .isTrue (by rw [h]) else .isFalse (by intro he; cases he; exact h rfl)

/-- Left-to-right effectful map over `Except`, modelling a Python list
comprehension in which each element computation may raise. -/
def exceptMap {α β : Type} (f : α → Except PyError β) : List α → Except PyError (List β)
  | [] => Except.ok []
  | a :: l => do
    let b ← f a
    let bs ← exceptMap f l
    pure (b :: bs)

/-- Model of `np.arange(n)` for an `int64` argument. -/
def npArange (n : Int) : List Int :=
  (List.range n.toNat).map (fun i : Nat => (i : Int))

/-- The list `[1, 2, ..., n]`, the value of the Python comprehension
`[x+1 for x in range(n)]` (empty for non-positive `n`). -/
def rangeFrom1 (n : Int) : List Int :=
  (List.range n.toNat).map (fun i : Nat => (i : Int) + 1)

/-- Model of `np.unique`: the sorted list of distinct values. -/
def npUnique (l : List Int) : List Int :=
  (List.insertionSort (fun a b : Int => a ≤ b) l).dedup

/-- Truth value under `not` of a NumPy boolean array (NumPy 1.x): an empty
array is falsy, a one-element array has the truth value of its element, and
a larger array raises `ValueError`. -/
def npTruthNot : List Bool → Except PyError Bool
  | [] => Except.ok true
  | [b] => Except.ok (!b)
  | _ :: _ :: _ => Except.error PyError.valueError

/-- Model of the Python expression `not (x == y)` for two integer arrays,
with NumPy broadcasting; incompatible shapes compare as the scalar `False`
(so the expression is `True`). -/
def npNotEqArr (x y : List Int) : Except PyError Bool :=
  if x.length = y.length then
    npTruthNot ((x.zip y).map (fun p => p.1 == p.2))
  else if x.length = 1 then
    npTruthNot (y.map (fun b => x.getD 0 0 == b))
  else if y.length = 1 then
    npTruthNot (x.map (fun a => a == y.getD 0 0))
  else
    Except.ok true

/-- Ascending positions at which `tail` holds the value `v`; the model of
`(tail == v).nonzero()`. -/
def npNonzeroEq : List Int → Int → List Nat
  | [], _ => []
  | c :: tl, v =>
    if c = v then 0 :: (npNonzeroEq tl v).map (fun i => i + 1)
    else (npNonzeroEq tl v).map (fun i => i + 1)

/-- Fancy indexing `l[idxs]`; raises `IndexError` when a position is out of
range. -/
def npTakeIdx (l : List Int) (idxs : List Nat) : Except PyError (List Int) :=
  exceptMap (fun i => if i < l.length then Except.ok (l.getD i 0) else Except.error PyError.indexError) idxs

/-- The in-memory spike-train collection held by `NeuroscopeSortingExtractor`:
the `_unit_ids` and `_spiketrains` attributes. -/
structure NeuroSorting where
  unit_ids : List Int
  spiketrains : List (List Int)
deriving DecidableEq

/-- Modelled from the spec: the state established by the base-class
`SortingExtractor.__init__` (the base package is not part of the sources);
an empty `res` file yields an empty collection with zero units. -/
def emptyBaseSorting : NeuroSorting := ⟨[], []⟩

/-- The cluster-count adjustment of `NeuroscopeSortingExtractor.__init__`
(lines 195-200): `if not unique_ids==np.arange(n_clu+1):` followed by one
increment for each of the ids 0 and 1 absent from the data. -/
def adjustNClu (n_clu : Int) (unique_ids : List Int) : Except PyError Int := do
  let b ← npNotEqArr unique_ids (npArange (n_clu + 1))
  if b then
    let n1 := if unique_ids.contains 0 then n_clu else n_clu + 1
    pure (if unique_ids.contains 1 then n1 else n1 + 1)
  else
    pure n_clu

/-- The classic single-pair reading path of
`NeuroscopeSortingExtractor.__init__` (lines 186-215), taking the parsed
`res` and `clu` arrays.  `clu[0]` is the declared cluster count; the rest is
one cluster id per spike.  When `res` is empty the source leaves the
collection as the base class initialized it (see `emptyBaseSorting`). -/
def readPair (res clu : List Int) (keep_mua_units : Bool) : Except PyError NeuroSorting :=
  if res.length > 0 then
    match clu with
    | [] => Except.error PyError.indexError
    | n0 :: tail => do
      let unique_ids := npUnique tail
      let n_clu ← adjustNClu n0 unique_ids
      if keep_mua_units then
        let n := n_clu - 1
        let unit_ids := rangeFrom1 n
        let spiketrains ← exceptMap (fun s_id => npTakeIdx res (npNonzeroEq tail s_id)) unit_ids
        pure ⟨unit_ids, spiketrains⟩
      else
        let n := n_clu - 2
        let unit_ids := rangeFrom1 n
        let spiketrains ← exceptMap (fun s_id => npTakeIdx res (npNonzeroEq tail (s_id + 1))) unit_ids
        pure ⟨unit_ids, spiketrains⟩
  else
    pure emptyBaseSorting

/-- Model of `list.index` (`self.get_unit_ids().index(unit_id)`). -/
def listIndex (a : Int) : List Int → Option Nat
  | [] => none
  | x :: xs => if x = a then some 0 else (listIndex a xs).map (fun i => i + 1)

/-- The `get_unit_ids` accessor. -/
def get_unit_ids (st : NeuroSorting) : List Int := st.unit_ids

/-- The `get_unit_spike_train` accessor with default frame bounds:
`start_frame` defaults to `0` and `end_frame` to infinity, so the returned
times are those `t` with `0 <= t` (every `int64` is below `np.Inf`).  An
unknown `unit_id` raises (the `check_valid_unit_id` guard of the base
package). -/
def get_unit_spike_train (st : NeuroSorting) (unit_id : Int) : Except PyError (List Int) :=
  match listIndex unit_id st.unit_ids with
  | none => Except.error PyError.valueError
  | some i =>
    if i < st.spiketrains.length then
      Except.ok ((st.spiketrains.getD i []).filter (fun t => decide (0 ≤ t)))
    else
      Except.error PyError.indexError

/-- The `shift_unit_ids` method (lines 255-256): shifts every unit id in
place. -/
def NeuroscopeSortingExtractor.shift_unit_ids (st : NeuroSorting) (shift : Int) : NeuroSorting :=
  ⟨st.unit_ids.map (fun x => x + shift), st.spiketrains⟩

/-- The `add_unit` method (lines 259-268): appends the given id and train. -/
def NeuroscopeSortingExtractor.add_unit (st : NeuroSorting) (unit_id : Int) (spike_times : List Int) : NeuroSorting :=
  ⟨st.unit_ids ++ [unit_id], st.spiketrains ++ [spike_times]⟩

/-- The comparison relation realised by `np.argsort` on positions of `l`:
by value, with ties broken towards the earlier position. -/
def argRel (l : List Int) (i j : Nat) : Prop :=
  l.getD i 0 < l.getD j 0 ∨ (l.getD i 0 = l.getD j 0 ∧ i ≤ j)

instance (l : List Int) : DecidableRel (argRel l) := fun i j => by
  unfold argRel; exact inferInstance

instance (l : List Int) : IsTotal Nat (argRel l) := by
  constructor
  intro i j
  unfold argRel
  rcases lt_trichotomy (l.getD i 0) (l.getD j 0) with h | h | h
  · exact Or.inl (Or.inl h)
  · rcases Nat.le_total i j with hij | hij
    · exact Or.inl (Or.inr ⟨h, hij⟩)
    · exact Or.inr (Or.inr ⟨h.symm, hij⟩)
  · exact Or.inr (Or.inl h)

instance (l : List Int) : IsTrans Nat (argRel l) := by
  constructor
  intro i j k hij hjk
  unfold argRel at *
  rcases hij with h1 | ⟨h1, h1'⟩
  · rcases hjk with h2 | ⟨h2, _⟩
    · exact Or.inl (h1.trans h2)
    · exact Or.inl (h2 ▸ h1)
  · rcases hjk with h2 | ⟨h2, h2'⟩
    · exact Or.inl (h1 ▸ h2)
    · exact Or.inr ⟨h1.trans h2, h1'.trans h2'⟩

/-- Model of `np.argsort(l)`: the positions `0, ..., l.length - 1` sorted by
value, ties resolved towards the earlier position. -/
def npArgsort (l : List Int) : List Nat :=
  List.insertionSort (argRel l) (List.range l.length)

/-- Fancy indexing by a list of (in-range) positions, as applied after
`argsort`; a missing position contributes the default `0`. -/
def npIndex (l : List Int) (idxs : List Nat) : List Int :=
  idxs.map (fun i => l.getD i 0)

/-- The array computation of `write_sorting` (lines 292-298): concatenate
every unit's spike train (unit at position `i` contributing cluster label
`i+1`), then reorder both arrays by the argsort of the times. -/
def writeSpikeArrays (spiketrains : List (List Int)) : List Int × List Int :=
  let res := spiketrains.flatten
  let clu := (spiketrains.enum.map (fun p => List.replicate p.2.length ((p.1 : Int) + 1))).flatten
  let res_sort := npArgsort res
  (npIndex res res_sort, npIndex clu res_sort)

/-- The body of `NeuroscopeSortingExtractor.write_sorting` (lines 291-309)
producing the `res` and `clu` file contents (one integer per line; the
written `clu` starts with the count of distinct labels). -/
def write_sorting (st : NeuroSorting) : Except PyError (List Int × List Int) := do
  let arrays ←
    if st.unit_ids.length > 0 then do
      let spiketrains ← exceptMap (get_unit_spike_train st) st.unit_ids
      pure (writeSpikeArrays spiketrains)
    else
      pure (([] : List Int), ([] : List Int))
  let n_clu : Int := (npUnique arrays.2).length
  pure (arrays.1, n_clu :: arrays.2)

/-- Model of `os.path.split(p)[1]`: the final path component. -/
def pyBasename (s : String) : String :=
  String.mk ((s.toList.reverse.takeWhile (fun c => c != '/')).reverse)

/-- The spike files written by the static
`NeuroscopeSortingExtractor.write_sorting` (lines 283-309): the `.res` and
`.clu` paths derived from the save path's own basename, paired with their
contents.  (The XML sidecar step, lines 311-322, is modelled separately by
`write_xml_if_absent`.) -/
def NeuroscopeSortingExtractor.write_files (save_path : String) (st : NeuroSorting) :
    Except PyError (List (String × List Int)) := do
  let name := pyBasename save_path
  let save_res := save_path ++ "/" ++ name ++ ".res"
  let save_clu := save_path ++ "/" ++ name ++ ".clu"
  let rc ← write_sorting st
  pure [(save_res, rc.1), (save_clu, rc.2)]

/-- The body of the static `NeuroscopeMultiSortingExtractor.write_sorting`
(lines 416-431), which duplicates the single-extractor code line for line;
`st` is the unit view the multi-sorting object exposes through
`get_unit_ids`/`get_unit_spike_train`. -/
def NeuroscopeMultiSortingExtractor.write_sorting (st : NeuroSorting) :
    Except PyError (List Int × List Int) := do
  let arrays ←
    if st.unit_ids.length > 0 then do
      let spiketrains ← exceptMap (get_unit_spike_train st) st.unit_ids
      pure (writeSpikeArrays spiketrains)
    else
      pure (([] : List Int), ([] : List Int))
  let n_clu : Int := (npUnique arrays.2).length
  pure (arrays.1, n_clu :: arrays.2)

/-- The spike files written by the static
`NeuroscopeMultiSortingExtractor.write_sorting` (lines 408-434): a single
`.res`/`.clu` pair at the save path, with no per-shank suffix. -/
def NeuroscopeMultiSortingExtractor.write_files (save_path : String) (st : NeuroSorting) :
    Except PyError (List (String × List Int)) := do
  let name := pyBasename save_path
  let save_res := save_path ++ "/" ++ name ++ ".res"
  let save_clu := save_path ++ "/" ++ name ++ ".clu"
  let rc ← NeuroscopeMultiSortingExtractor.write_sorting st
  pure [(save_res, rc.1), (save_clu, rc.2)]

/-- The XML sidecar step shared by `write_recording` (lines 91-116) and both
`write_sorting` methods (lines 311-322, 436-447): `if not
os.path.isfile(save_xml):` write the parameters file.  The file system at
the target path is modelled as `Option String` (the sidecar contents when
present). -/
def write_xml_if_absent (existing : Option String) (content : String) : Option String :=
  match existing with
  | some c => some c
  | none => some content

/-- Python slice `s[-a:-b]` (with `b = 0` meaning `s[-a:]`), clamped at the
ends as Python does. -/
def pysliceNeg (s : List Char) (a b : Nat) : List Char :=
  (s.take (s.length - b)).drop (s.length - a)

/-- The shank-discovery part of `NeuroscopeMultiSortingExtractor.__init__`
(lines 376-398): rejects a folder holding an unsplit `.res`/`.clu` pair,
collects trailing shank digits of `.res.N`/`.clu.N` files (skipping `temp`
files), requires the two digit lists to be equal, and returns the list of
shank ids for which a `NeuroscopeSortingExtractor` is constructed, in
order.  The `exclude_shanks` argument is accepted by the source but never
consulted (it is only stored in `self._kwargs`). -/
def NeuroscopeMultiSortingExtractor.shank_ids (onlyfiles : List String)
    (exclude_shanks : Option (List Char)) : Except PyError (List Char) :=
  let end_res := onlyfiles.map (fun x => pysliceNeg x.toList 3 0 == ['r', 'e', 's'])
  let end_clu := onlyfiles.map (fun x => pysliceNeg x.toList 3 0 == ['c', 'l', 'u'])
  let any_res := end_res.any id
  let any_clu := end_clu.any id
  if any_res || any_clu then
    Except.error PyError.assertionError
  else
    let shank_res_ids := (onlyfiles.filter (fun x =>
      pysliceNeg x.toList 5 2 == ['r', 'e', 's'] && pysliceNeg x.toList 10 6 != ['t', 'e', 'm', 'p'])).map
      (fun x => x.toList.getLastD ' ')
    let shank_clu_ids := (onlyfiles.filter (fun x =>
      pysliceNeg x.toList 5 2 == ['c', 'l', 'u'] && pysliceNeg x.toList 10 6 != ['t', 'e', 'm', 'p'])).map
      (fun x => x.toList.getLastD ' ')
    if shank_res_ids = shank_clu_ids then
      Except.ok shank_res_ids
    else
      Except.error PyError.assertionError

/-- Spec-side description (for §4.2 step 4): the sub-sequence of `res`
values whose positionally aligned `clu` entry equals `k`, in file order. -/
def specAlignedSpikes (res tail : List Int) (k : Int) : List Int :=
  ((res.zip tail).filter (fun p => p.2 == k)).map Prod.fst

/-- Spec-side description (for §4.2 Write step 2): the concatenation of
every unit's spikes paired with that unit's cluster label `i + 1`, where
`i` is the unit's position. -/
def specLabelledSpikes (spiketrains : List (List Int)) : List (Int × Int) :=
  (spiketrains.enum.map (fun p => p.2.map (fun t => (t, (p.1 : Int) + 1)))).flatten

/-- The SpikeTrainCollection invariant of §3: unit ids form the contiguous
range `1 .. n` in retention order. -/
def contiguousFrom1 (ids : List Int) : Prop :=
  ids = rangeFrom1 (ids.length : Int)

instance (ids : List Int) : Decidable (contiguousFrom1 ids) := by
  unfold contiguousFrom1; exact inferInstance

section Lemmas

lemma except_bind_ok {α β : Type} {x : Except PyError α} {f : α → Except PyError β} {b : β}
    (h : x >>= f = Except.ok b) : ∃ a, x = Except.ok a ∧ f a = Except.ok b := by
  cases x with
  | error e => exact absurd h (by simp [Bind.bind, Except.bind])
  | ok a => exact ⟨a, rfl, by simpa [Bind.bind, Except.bind] using h⟩

lemma exceptMap_ok_iff {α β : Type} {f : α → Except PyError β} :
    ∀ {l : List α} {ys : List β},
      exceptMap f l = Except.ok ys ↔ List.Forall₂ (fun a b => f a = Except.ok b) l ys := by
  intro l
  induction l with
  | nil =>
    intro ys
    constructor
    · intro h
      cases h
      exact List.Forall₂.nil
    · intro h
      cases h
      rfl
  | cons a l ih =>
    intro ys
    constructor
    · intro h
      rcases except_bind_ok h with ⟨b, hb, h⟩
      rcases except_bind_ok h with ⟨bs, hbs, h⟩
      cases h
      exact List.Forall₂.cons hb (ih.mp hbs)
    · intro h
      cases h with
      | cons hb hbs =>
        simp only [exceptMap, hb, ih.mpr hbs]
        rfl

lemma rangeFrom1_length (n : Int) : (rangeFrom1 n).length = n.toNat := by
  unfold rangeFrom1
  rw [List.length_map, List.length_range]

lemma rangeFrom1_toNat (n : Int) : rangeFrom1 ((n.toNat : Nat) : Int) = rangeFrom1 n := by
  unfold rangeFrom1
  rw [Int.toNat_natCast]

lemma rangeFrom1_succ_cons (n : Nat) :
    rangeFrom1 ((n + 1 : Nat) : Int) = 1 :: (rangeFrom1 (n : Int)).map (fun x => x + 1) := by
  unfold rangeFrom1
  rw [Int.toNat_natCast, Int.toNat_natCast, List.range_succ_eq_map, List.map_cons,
    List.map_map, List.map_map]
  refine List.cons_eq_cons.mpr ⟨by norm_num, ?_⟩
  apply List.map_congr_left
  intro a _
  simp only [Function.comp_apply]
  push_cast
  ring

lemma rangeFrom1_succ_append (n : Nat) :
    rangeFrom1 ((n + 1 : Nat) : Int) = rangeFrom1 (n : Int) ++ [(n : Int) + 1] := by
  unfold rangeFrom1
  rw [Int.toNat_natCast, Int.toNat_natCast, List.range_succ, List.map_append, List.map_cons,
    List.map_nil]

lemma mem_rangeFrom1 {n : Int} {x : Int} : x ∈ rangeFrom1 n ↔ 1 ≤ x ∧ x ≤ n := by
  unfold rangeFrom1
  rw [List.mem_map]
  constructor
  · rintro ⟨i, hi, rfl⟩
    rw [List.mem_range] at hi
    omega
  · rintro ⟨h1, h2⟩
    exact ⟨(x - 1).toNat, by rw [List.mem_range]; omega, by omega⟩

lemma rangeFrom1_nodup (n : Int) : (rangeFrom1 n).Nodup := by
  apply List.Nodup.map
  · intro a b h
    dsimp at h
    omega
  · exact List.nodup_range _

lemma rangeFrom1_sorted (n : Int) : List.Sorted (· ≤ ·) (rangeFrom1 n) := by
  unfold rangeFrom1
  rw [List.Sorted, List.pairwise_map]
  have := List.pairwise_le_range n.toNat
  apply List.Pairwise.imp ?_ this
  intro a b h
  omega

lemma listIndex_map_add_one (a : Int) (l : List Int) :
    listIndex (a + 1) (l.map (fun x => x + 1)) = listIndex a l := by
  induction l with
  | nil => rfl
  | cons x xs ih =>
    by_cases hx : x = a
    · simp [listIndex, hx]
    · have hx1 : ¬ (x + 1 = a + 1) := by omega
      simp [listIndex, hx, hx1, ih]

lemma listIndex_rangeFrom1 {n i : Nat} (h : i < n) :
    listIndex ((i : Int) + 1) (rangeFrom1 (n : Int)) = some i := by
  induction n generalizing i with
  | zero => omega
  | succ m ih =>
    rw [rangeFrom1_succ_cons]
    cases i with
    | zero => simp [listIndex]
    | succ j =>
      have hcast : ((j + 1 : Nat) : Int) + 1 = ((j : Int) + 1) + 1 := by push_cast; ring
      rw [hcast]
      have hne : ¬ ((1 : Int) = (j : Int) + 1 + 1) := by omega
      simp only [listIndex, if_neg hne]
      rw [listIndex_map_add_one ((j : Int) + 1), ih (by omega : j < m)]
      rfl

lemma npNonzeroEq_lt {tail : List Int} {v : Int} {i : Nat} (h : i ∈ npNonzeroEq tail v) :
    i < tail.length := by
  induction tail generalizing i with
  | nil => cases h
  | cons c tl ih =>
    unfold npNonzeroEq at h
    by_cases hc : c = v
    · rw [if_pos hc] at h
      rcases List.mem_cons.mp h with h0 | hmem
      · subst h0
        simp
      · rcases List.mem_map.mp hmem with ⟨j, hj, rfl⟩
        have := ih hj
        simp
        omega
    · rw [if_neg hc] at h
      rcases List.mem_map.mp h with ⟨j, hj, rfl⟩
      have := ih hj
      simp
      omega

lemma npTakeIdx_ok {l : List Int} {idxs : List Nat} {ys : List Int}
    (h : npTakeIdx l idxs = Except.ok ys) :
    (∀ i ∈ idxs, i < l.length) ∧ ys = idxs.map (fun i => l.getD i 0) := by
  rw [npTakeIdx, exceptMap_ok_iff] at h
  constructor
  · intro i hi
    rcases List.forall₂_iff_get.mp h with ⟨hlen, hget⟩
    rcases List.mem_iff_get.mp hi with ⟨k, rfl⟩
    have := hget k k.isLt (by omega)
    by_contra hge
    rw [if_neg hge] at this
    cases this
  · have aux : ∀ {idxs' : List Nat} {ys' : List Int},
        List.Forall₂ (fun i b =>
          (if i < l.length then Except.ok (l.getD i 0) else Except.error PyError.indexError) =
            Except.ok b) idxs' ys' →
        ys' = idxs'.map (fun i => l.getD i 0) := by
      intro idxs'
      induction idxs' with
      | nil =>
        intro ys' h2
        cases h2
        rfl
      | cons i rest ih2 =>
        intro ys' h2
        cases h2 with
        | cons hfab htl =>
          by_cases hi : i < l.length
          · rw [if_pos hi] at hfab
            cases hfab
            rw [List.map_cons, ih2 htl]
          · rw [if_neg hi] at hfab
            cases hfab
    exact aux h

lemma map_getD_npNonzeroEq {res tail : List Int} {v : Int}
    (hlt : ∀ i ∈ npNonzeroEq tail v, i < res.length) :
    (npNonzeroEq tail v).map (fun i => res.getD i 0) = specAlignedSpikes res tail v := by
  induction tail generalizing res with
  | nil =>
    unfold specAlignedSpikes
    simp [npNonzeroEq]
  | cons c tl ih =>
    cases res with
    | nil =>
      have hempty : npNonzeroEq (c :: tl) v = [] := by
        by_contra hne
        rcases List.exists_mem_of_ne_nil _ hne with ⟨i, hi⟩
        exact absurd (hlt i hi) (by simp)
      unfold specAlignedSpikes
      simp [hempty]
    | cons r rs =>
      have hstep : ∀ j ∈ npNonzeroEq tl v, j < rs.length := by
        intro j hj
        have : j + 1 ∈ npNonzeroEq (c :: tl) v := by
          unfold npNonzeroEq
          by_cases hc : c = v
          · rw [if_pos hc]
            exact List.mem_cons_of_mem _ (List.mem_map.mpr ⟨j, hj, rfl⟩)
          · rw [if_neg hc]
            exact List.mem_map.mpr ⟨j, hj, rfl⟩
        have := hlt _ this
        simp at this
        omega
      unfold npNonzeroEq specAlignedSpikes
      by_cases hc : c = v
      · rw [if_pos hc]
        rw [List.map_cons, List.map_map]
        have : ((npNonzeroEq tl v).map (fun i => (r :: rs).getD (i + 1) 0)) =
            (npNonzeroEq tl v).map (fun i => rs.getD i 0) := by
          apply List.map_congr_left
          intro a _
          simp
        rw [show ((fun i : Nat => (r :: rs).getD i 0) ∘ fun i => i + 1) =
            (fun i : Nat => (r :: rs).getD (i + 1) 0) from rfl, this, ih hstep]
        unfold specAlignedSpikes
        simp only [List.zip_cons_cons, List.filter_cons, hc]
        simp
      · rw [if_neg hc]
        rw [List.map_map]
        have : ((npNonzeroEq tl v).map (fun i => (r :: rs).getD (i + 1) 0)) =
            (npNonzeroEq tl v).map (fun i => rs.getD i 0) := by
          apply List.map_congr_left
          intro a _
          simp
        rw [show ((fun i : Nat => (r :: rs).getD i 0) ∘ fun i => i + 1) =
            (fun i : Nat => (r :: rs).getD (i + 1) 0) from rfl, this, ih hstep]
        unfold specAlignedSpikes
        simp only [List.zip_cons_cons, List.filter_cons]
        have : ¬ ((c == v) = true) := by simpa using hc
        simp [this]

lemma npArange_length (n : Int) : (npArange n).length = n.toNat := by
  unfold npArange
  rw [List.length_map, List.length_range]

lemma npNotEqArr_incompatible {x y : List Int} (h1 : x.length ≠ y.length)
    (h2 : x.length ≠ 1) (h3 : y.length ≠ 1) : npNotEqArr x y = Except.ok true := by
  unfold npNotEqArr
  rw [if_neg h1, if_neg h2, if_neg h3]

lemma adjustNClu_of_shape_mismatch {n_clu : Int} {uniq : List Int}
    (h1 : uniq.length ≠ (n_clu + 1).toNat) (h2 : uniq.length ≠ 1) (h3 : (n_clu + 1).toNat ≠ 1) :
    adjustNClu n_clu uniq =
      Except.ok ((if uniq.contains 0 then n_clu else n_clu + 1) +
        (if uniq.contains 1 then 0 else 1)) := by
  unfold adjustNClu
  rw [npNotEqArr_incompatible (by rw [npArange_length]; exact h1) h2
    (by rw [npArange_length]; exact h3)]
  by_cases h0 : (0 : Int) ∈ uniq <;> by_cases hc1 : (1 : Int) ∈ uniq <;>
    simp [h0, hc1, Bind.bind, Except.bind, Pure.pure, Except.pure]

lemma rangeFrom1_get (n : Int) (i : Nat) (h : i < (rangeFrom1 n).length) :
    (rangeFrom1 n).get ⟨i, h⟩ = (i : Int) + 1 := by
  unfold rangeFrom1 at *
  rw [List.get_map]
  have : (List.range n.toNat).get ⟨i, by simpa using h⟩ = i := List.get_range _ _
  rw [this]

lemma getD_eq_get {α : Type} [Inhabited α] (l : List α) (i : Nat) (h : i < l.length) (d : α) :
    l.getD i d = l.get ⟨i, h⟩ := by
  rw [List.getD_eq_getElem?_getD, List.getElem?_eq_getElem h]
  rfl

lemma exceptMap_get_trains (ts : List (List Int)) :
    exceptMap (get_unit_spike_train ⟨rangeFrom1 ((ts.length : Nat) : Int), ts⟩)
      (rangeFrom1 ((ts.length : Nat) : Int)) =
      Except.ok (ts.map (List.filter (fun t => decide (0 ≤ t)))) := by
  rw [exceptMap_ok_iff, List.forall₂_iff_get]
  constructor
  · rw [rangeFrom1_length, List.length_map]
    omega
  · intro i h₁ h₂
    rw [rangeFrom1_get]
    have hi : i < ts.length := by
      rw [rangeFrom1_length] at h₁
      omega
    unfold get_unit_spike_train
    rw [listIndex_rangeFrom1 hi]
    simp only
    rw [if_pos (by simpa using hi)]
    rw [List.get_map, getD_eq_get ts i hi []]

lemma readPair_ok_true {res : List Int} {n0 : Int} {tail : List Int} {st : NeuroSorting}
    (hres : res ≠ []) (h : readPair res (n0 :: tail) true = Except.ok st) :
    ∃ N, adjustNClu n0 (npUnique tail) = Except.ok N ∧
      st.unit_ids = rangeFrom1 (N - 1) ∧
      List.Forall₂ (fun s t => npTakeIdx res (npNonzeroEq tail s) = Except.ok t)
        (rangeFrom1 (N - 1)) st.spiketrains := by
  unfold readPair at h
  rw [if_pos (by simpa [List.length_pos] using hres)] at h
  rcases except_bind_ok h with ⟨N, hN, h⟩
  rw [if_pos rfl] at h
  rcases except_bind_ok h with ⟨trains, htr, h⟩
  have hst : st = ⟨rangeFrom1 (N - 1), trains⟩ := by
    have := h
    simp only [Pure.pure, Except.pure, Except.ok.injEq] at this
    exact this.symm
  subst hst
  exact ⟨N, hN, rfl, exceptMap_ok_iff.mp htr⟩

lemma readPair_ok_false {res : List Int} {n0 : Int} {tail : List Int} {st : NeuroSorting}
    (hres : res ≠ []) (h : readPair res (n0 :: tail) false = Except.ok st) :
    ∃ N, adjustNClu n0 (npUnique tail) = Except.ok N ∧
      st.unit_ids = rangeFrom1 (N - 2) ∧
      List.Forall₂ (fun s t => npTakeIdx res (npNonzeroEq tail (s + 1)) = Except.ok t)
        (rangeFrom1 (N - 2)) st.spiketrains := by
  unfold readPair at h
  rw [if_pos (by simpa [List.length_pos] using hres)] at h
  rcases except_bind_ok h with ⟨N, hN, h⟩
  rw [if_neg (by simp)] at h
  rcases except_bind_ok h with ⟨trains, htr, h⟩
  have hst : st = ⟨rangeFrom1 (N - 2), trains⟩ := by
    have := h
    simp only [Pure.pure, Except.pure, Except.ok.injEq] at this
    exact this.symm
  subst hst
  exact ⟨N, hN, rfl, exceptMap_ok_iff.mp htr⟩

lemma readPair_ok_true_intro {res : List Int} {n0 : Int} {tail : List Int} {N : Int}
    {trains : List (List Int)} (hres : res ≠ [])
    (hN : adjustNClu n0 (npUnique tail) = Except.ok N)
    (htr : exceptMap (fun s_id => npTakeIdx res (npNonzeroEq tail s_id)) (rangeFrom1 (N - 1)) =
      Except.ok trains) :
    readPair res (n0 :: tail) true = Except.ok ⟨rangeFrom1 (N - 1), trains⟩ := by
  unfold readPair
  rw [if_pos (by simpa [List.length_pos] using hres)]
  show (adjustNClu n0 (npUnique tail) >>= fun n_clu => _) = _
  rw [hN]
  simp only [Bind.bind, Except.bind, if_pos rfl]
  rw [htr]
  simp [Pure.pure, Except.pure]

lemma npArgsort_perm (l : List Int) : List.Perm (npArgsort l) (List.range l.length) :=
  List.perm_insertionSort _ _

lemma npArgsort_sorted (l : List Int) : List.Sorted (argRel l) (npArgsort l) :=
  List.sorted_insertionSort _ _

lemma npArgsort_mem_lt {l : List Int} {i : Nat} (h : i ∈ npArgsort l) : i < l.length := by
  have := (npArgsort_perm l).mem_iff.mp h
  simpa [List.mem_range] using this

lemma npIndex_range (l : List Int) : npIndex l (List.range l.length) = l := by
  unfold npIndex
  apply List.ext_getElem
  · simp
  · intro i h1 h2
    simp only [List.getElem_map, List.getElem_range]
    exact List.getD_eq_getElem l 0 h2

lemma npIndex_perm {l : List Int} {idxs : List Nat} (h : List.Perm idxs (List.range l.length)) :
    List.Perm (npIndex l idxs) l := by
  have hm := h.map (fun i => l.getD i 0)
  have : (List.range l.length).map (fun i => l.getD i 0) = l := npIndex_range l
  rw [this] at hm
  exact hm

lemma npIndex_pairwise_le {l : List Int} {idxs : List Nat}
    (h : List.Sorted (argRel l) idxs) : List.Pairwise (· ≤ ·) (npIndex l idxs) := by
  unfold npIndex
  refine List.Pairwise.map _ ?_ h
  intro a b hab
  rcases hab with h1 | ⟨h1, _⟩
  · exact le_of_lt h1
  · exact le_of_eq h1

lemma npIndex_length (l : List Int) (idxs : List Nat) :
    (npIndex l idxs).length = idxs.length := List.length_map _ _

lemma zip_replicate_const (t : List Int) (c : Int) :
    t.zip (List.replicate t.length c) = t.map (fun x => (x, c)) := by
  induction t with
  | nil => rfl
  | cons x xs ih => simp [List.replicate_succ, ih]

lemma labels_flatten_zip : ∀ (ts : List (List Int)) (k : Nat),
    (ts.flatten).zip
        (((ts.enumFrom k).map (fun p => List.replicate p.2.length ((p.1 : Int) + 1))).flatten) =
      ((ts.enumFrom k).map (fun p => p.2.map (fun t => (t, (p.1 : Int) + 1)))).flatten := by
  intro ts
  induction ts with
  | nil => intro k; rfl
  | cons t ts ih =>
    intro k
    have e1 : (t :: ts).enumFrom k = (k, t) :: ts.enumFrom (k + 1) := rfl
    rw [e1]
    simp only [List.map_cons, List.flatten_cons]
    rw [List.zip_append (by simp), zip_replicate_const t ((k : Int) + 1), ih (k + 1)]

lemma labels_flatten_length : ∀ (ts : List (List Int)) (k : Nat),
    (((ts.enumFrom k).map (fun p => List.replicate p.2.length ((p.1 : Int) + 1))).flatten).length =
      ts.flatten.length := by
  intro ts
  induction ts with
  | nil => intro k; rfl
  | cons t ts ih =>
    intro k
    have e1 : (t :: ts).enumFrom k = (k, t) :: ts.enumFrom (k + 1) := rfl
    rw [e1]
    simp only [List.map_cons, List.flatten_cons, List.length_append, List.length_replicate]
    rw [ih (k + 1)]

lemma npUnique_sorted (l : List Int) : List.Sorted (· ≤ ·) (npUnique l) :=
  List.Pairwise.sublist (List.dedup_sublist _) (List.sorted_insertionSort _ l)

lemma npUnique_nodup (l : List Int) : (npUnique l).Nodup := List.nodup_dedup _

lemma mem_npUnique {l : List Int} {x : Int} : x ∈ npUnique l ↔ x ∈ l := by
  unfold npUnique
  rw [List.mem_dedup]
  exact (List.perm_insertionSort _ l).mem_iff

lemma npUnique_length_eq_card (l : List Int) : (npUnique l).length = l.toFinset.card := by
  unfold npUnique
  rw [← List.card_toFinset,
    List.toFinset_eq_of_perm _ _ (List.perm_insertionSort (fun a b : Int => a ≤ b) l)]

lemma npUnique_eq_sorted_nodup {l l' : List Int} (hs : List.Sorted (· ≤ ·) l')
    (hn : l'.Nodup) (hm : ∀ x, x ∈ l ↔ x ∈ l') : npUnique l = l' := by
  apply List.eq_of_perm_of_sorted _ (npUnique_sorted l) hs
  apply List.perm_of_nodup_nodup_toFinset_eq (npUnique_nodup l) hn
  apply List.toFinset.ext
  intro x
  rw [mem_npUnique]
  exact hm x

end Lemmas

/-! Claim theorems. -/

/-- C9: MetadataCodec.Write is a no-op when an XML sidecar already exists at
the target path: the existing file's contents are unchanged and no new
sidecar is produced, so repeated save calls leave the sidecar identical to
what the first call (or the pre-existing file) established. -/
theorem c9_metadata_write_noop :
    (∀ (c n : String), write_xml_if_absent (some c) n = some c) ∧
    (∀ (fs : Option String) (a b : String),
      write_xml_if_absent (write_xml_if_absent fs a) b = write_xml_if_absent fs a) := by
  constructor
  · intro c n
    rfl
  · intro fs a b
    cases fs <;> rfl

/-- C8: reading an empty res file yields a collection with zero units
(whatever the clu contents and the mua flag), get_unit_ids of that
collection is the empty list, and writing a zero-unit collection produces an
empty res body and a clu body holding only the line 0. -/
theorem c8_empty_edge :
    (∀ (clu : List Int) (keep_mua_units : Bool),
      readPair [] clu keep_mua_units = Except.ok emptyBaseSorting) ∧
    get_unit_ids emptyBaseSorting = [] ∧
    write_sorting emptyBaseSorting = Except.ok ([], [0]) := by
  refine ⟨fun clu keep => rfl, rfl, rfl⟩

/-- C6: the source accepts exclude_shanks but never applies it.  With
discovered shank files for indices 1 and 2 and exclude_shanks naming index
1, the constructor still invokes the single-pair reader for shank 1: the
returned construction list is exactly ['1', '2'], so the excluded index is
not removed before aggregation. -/
theorem c6_exclude_shanks_ignored :
    NeuroscopeMultiSortingExtractor.shank_ids
        ["mouse.res.1", "mouse.clu.1", "mouse.res.2", "mouse.clu.2"] (some ['1']) =
      Except.ok ['1', '2'] ∧
    NeuroscopeMultiSortingExtractor.shank_ids
        ["mouse.res.1", "mouse.clu.1", "mouse.res.2", "mouse.clu.2"] none =
      Except.ok ['1', '2'] := by
  exact ⟨by decide, by decide⟩

/-- C1: on res = [10, 20], clu = [1, 0, 1] the distinct cluster ids [0, 1]
are exactly np.arange(n_clu + 1), yet the reader does not proceed with
n_clu unchanged: `not unique_ids==np.arange(n_clu+1)` applies not to a
two-element boolean array and raises ValueError. -/
theorem c1_full_range_raises_valueerror :
    npUnique [0, 1] = npArange (1 + 1) ∧
    readPair [10, 20] [1, 0, 1] true = Except.error PyError.valueError := by
  exact ⟨by decide, by decide⟩

/-- C5 counterexample: a pair whose res has three lines while the clu body
has two is read without any error, so Read does not fail on every
mismatched pair. -/
theorem c5_counterexample_mismatch_accepted :
    (([10, 20, 30] : List Int).length ≠ ([0, 1] : List Int).length) ∧
    readPair [10, 20, 30] (2 :: [0, 1]) true =
      Except.ok ⟨[1], [[20]]⟩ := by
  exact ⟨by decide, by decide⟩

/-- C5 amended: the reader performs no length comparison between res and the
clu body; a mismatched pair can be read successfully, and a mismatch
surfaces only indirectly when an out-of-range position is selected
(IndexError). -/
theorem c5_amended_no_length_check :
    (([5, 6, 7, 8] : List Int).length ≠ ([0, 1] : List Int).length ∧
      readPair [5, 6, 7, 8] (2 :: [0, 1]) true = Except.ok ⟨[1], [[6]]⟩) ∧
    (([10] : List Int).length ≠ ([0, 1, 2] : List Int).length ∧
      readPair [10] (3 :: [0, 1, 2]) true = Except.error PyError.indexError) := by
  exact ⟨⟨by decide, by decide⟩, ⟨by decide, by decide⟩⟩

/-- C7 counterexample: saving a multi-sorting whose two shanks expose the
flattened unit view [1, 2] writes exactly one unsuffixed res/clu pair at
the save path, not one suffixed pair per shank. -/
theorem c7_counterexample_single_pair_written :
    NeuroscopeMultiSortingExtractor.write_files "TT" ⟨[1, 2], [[5], [7]]⟩ =
      Except.ok [("TT/TT.res", [5, 7]), ("TT/TT.clu", [2, 1, 2])] ∧
    (["TT/TT.res", "TT/TT.clu"] : List String) ≠
      ["TT/TT.res.1", "TT/TT.clu.1", "TT/TT.res.2", "TT/TT.clu.2"] := by
  exact ⟨by decide, by decide⟩

/-- C7 amended: MultiSortingExtractor.Save applies the identical write
algorithm as the single-collection Save, but applied once to the whole
multi-sorting: for every save path and collection it produces exactly the
same output as the single-collection writer, namely a single res/clu pair
at save_path/basename.res and save_path/basename.clu with no per-shank
suffix. -/
theorem c7_amended_identical_single_write :
    (∀ (p : String) (st : NeuroSorting),
      NeuroscopeMultiSortingExtractor.write_files p st =
        NeuroscopeSortingExtractor.write_files p st) ∧
    (∀ (p : String) (st : NeuroSorting) (out : List (String × List Int)),
      NeuroscopeMultiSortingExtractor.write_files p st = Except.ok out →
      out.map Prod.fst =
        [p ++ "/" ++ pyBasename p ++ ".res", p ++ "/" ++ pyBasename p ++ ".clu"]) := by
  constructor
  · intro p st
    rfl
  · intro p st out h
    unfold NeuroscopeMultiSortingExtractor.write_files at h
    rcases except_bind_ok h with ⟨rc, hrc, h⟩
    have : out = [(p ++ "/" ++ pyBasename p ++ ".res", rc.1),
        (p ++ "/" ++ pyBasename p ++ ".clu", rc.2)] := by
      have := h
      simp only [Pure.pure, Except.pure, Except.ok.injEq] at this
      exact this.symm
    subst this
    rfl

/-- C7 amended, witness at a concrete two-shank save. -/
theorem c7_amended_identical_single_write_witness :
    (NeuroscopeMultiSortingExtractor.write_files "TT" ⟨[1, 2], [[5], [7]]⟩ =
      NeuroscopeSortingExtractor.write_files "TT" ⟨[1, 2], [[5], [7]]⟩) ∧
    ([("TT/TT.res", ([5, 7] : List Int)), ("TT/TT.clu", [2, 1, 2])].map Prod.fst =
      ["TT" ++ "/" ++ pyBasename "TT" ++ ".res", "TT" ++ "/" ++ pyBasename "TT" ++ ".clu"]) := by
  constructor
  · exact c7_amended_identical_single_write.1 "TT" ⟨[1, 2], [[5], [7]]⟩
  · exact c7_amended_identical_single_write.2 "TT" ⟨[1, 2], [[5], [7]]⟩ _ (by decide)

lemma contiguous_rangeFrom1 (n : Int) : contiguousFrom1 (rangeFrom1 n) := by
  unfold contiguousFrom1
  rw [rangeFrom1_length, rangeFrom1_toNat]

/-- C10 counterexample: from the constructed collection with unit ids [1],
shift_unit_ids 1 yields ids [2], which is not the contiguous range starting
at 1; likewise add_unit with unit_id 5 yields ids [1, 5].  The invariant is
not preserved by every public operation. -/
theorem c10_counterexample_shift_breaks_invariant :
    readPair [10, 20] [2, 0, 1] true = Except.ok ⟨[1], [[20]]⟩ ∧
    NeuroscopeSortingExtractor.shift_unit_ids ⟨[1], [[20]]⟩ 1 = ⟨[2], [[20]]⟩ ∧
    ¬ contiguousFrom1 [2] ∧
    NeuroscopeSortingExtractor.add_unit ⟨[1], [[20]]⟩ 5 [] = ⟨[1, 5], [[20], []]⟩ ∧
    ¬ contiguousFrom1 [1, 5] := by
  exact ⟨by decide, by decide, by decide, by decide, by decide⟩

/-- C10 amended: the contiguity invariant (unit ids are 1 .. n in retention
order) holds after construction, but it is preserved by add_unit exactly
when the added id is n + 1 and by shift_unit_ids exactly when the shift is
0 (for a non-empty collection). -/
theorem c10_amended_invariant :
    (∀ (res clu : List Int) (keep_mua_units : Bool) (st : NeuroSorting),
      readPair res clu keep_mua_units = Except.ok st → contiguousFrom1 st.unit_ids) ∧
    (∀ (st : NeuroSorting) (t : List Int), contiguousFrom1 st.unit_ids →
      contiguousFrom1
        (NeuroscopeSortingExtractor.add_unit st ((st.unit_ids.length : Int) + 1) t).unit_ids) ∧
    (∀ (st : NeuroSorting) (u : Int) (t : List Int), contiguousFrom1 st.unit_ids →
      contiguousFrom1 (NeuroscopeSortingExtractor.add_unit st u t).unit_ids →
      u = (st.unit_ids.length : Int) + 1) ∧
    (∀ (st : NeuroSorting), NeuroscopeSortingExtractor.shift_unit_ids st 0 =
      ⟨st.unit_ids, st.spiketrains⟩) ∧
    (∀ (st : NeuroSorting) (k : Int), st.unit_ids ≠ [] → contiguousFrom1 st.unit_ids →
      contiguousFrom1 (NeuroscopeSortingExtractor.shift_unit_ids st k).unit_ids → k = 0) := by
  refine ⟨?_, ?_, ?_, ?_, ?_⟩
  · intro res clu keep st h
    rcases res with _ | ⟨r, res'⟩
    · unfold readPair at h
      rw [if_neg (by simp)] at h
      have : st = emptyBaseSorting := by
        have := h
        simp only [Pure.pure, Except.pure, Except.ok.injEq] at this
        exact this.symm
      subst this
      exact contiguous_rangeFrom1 0
    · rcases clu with _ | ⟨n0, tail⟩
      · unfold readPair at h
        rw [if_pos (by simp)] at h
        cases h
      · cases keep with
        | true =>
          rcases readPair_ok_true (by simp) h with ⟨N, _, hids, _⟩
          rw [hids]
          exact contiguous_rangeFrom1 _
        | false =>
          rcases readPair_ok_false (by simp) h with ⟨N, _, hids, _⟩
          rw [hids]
          exact contiguous_rangeFrom1 _
  · intro st t hc
    unfold contiguousFrom1 at hc ⊢
    unfold NeuroscopeSortingExtractor.add_unit
    simp only [List.length_append, List.length_singleton]
    rw [rangeFrom1_succ_append, hc, rangeFrom1_length]
    congr 2
  · intro st u t hc hc2
    unfold contiguousFrom1 at hc hc2
    unfold NeuroscopeSortingExtractor.add_unit at hc2
    simp only [List.length_append, List.length_singleton] at hc2
    rw [rangeFrom1_succ_append] at hc2
    have hlen : (rangeFrom1 ((st.unit_ids.length : Nat) : Int)).length = st.unit_ids.length := by
      rw [rangeFrom1_length]
      omega
    have hu := (List.append_inj hc2 (by rw [hlen])).2
    injection hu
  · intro st
    unfold NeuroscopeSortingExtractor.shift_unit_ids
    simp
  · intro st k hne hc hc2
    unfold contiguousFrom1 at hc hc2
    unfold NeuroscopeSortingExtractor.shift_unit_ids at hc2
    simp only [List.length_map] at hc2
    rcases hn : st.unit_ids with _ | ⟨x, ids'⟩
    · exact absurd hn hne
    · rw [hn] at hc hc2
      have hx : x = 1 := by
        have hlen : (x :: ids').length = ids'.length + 1 := by simp
        rw [hlen] at hc
        rw [rangeFrom1_succ_cons] at hc
        injection hc with h1 _
      rw [hx] at hc2
      have hlen2 : ((1 : Int) :: ids').length = ids'.length + 1 := by simp
      rw [hlen2, rangeFrom1_succ_cons] at hc2
      simp only [List.map_cons] at hc2
      injection hc2 with h1 _
      omega

/-- C10 amended, witness: the construction part at a concrete read, the
add_unit part at id n + 1, and the shift part at shift 0. -/
theorem c10_amended_invariant_witness :
    contiguousFrom1 ((⟨[1], [[20]]⟩ : NeuroSorting)).unit_ids ∧
    contiguousFrom1 (NeuroscopeSortingExtractor.add_unit ⟨[1], [[20]]⟩
      ((((⟨[1], [[20]]⟩ : NeuroSorting)).unit_ids.length : Int) + 1) []).unit_ids ∧
    (0 : Int) = 0 := by
  refine ⟨?_, ?_, ?_⟩
  · exact c10_amended_invariant.1 [10, 20] [2, 0, 1] true ⟨[1], [[20]]⟩ (by decide)
  · exact c10_amended_invariant.2.1 ⟨[1], [[20]]⟩ [] (by decide)
  · exact c10_amended_invariant.2.2.2.2 ⟨[1], [[20]]⟩ 0 (by decide) (by decide) (by decide)

lemma npTakeIdx_aligned {res tail : List Int} {s : Int} {t : List Int}
    (h : npTakeIdx res (npNonzeroEq tail s) = Except.ok t) :
    t = specAlignedSpikes res tail s := by
  rcases npTakeIdx_ok h with ⟨hb, ht⟩
  rw [ht]
  exact map_getD_npNonzeroEq hb

/-- C2 counterexample: on res = [10, 20, 30], clu = [3, 1, 2, 1], the true
setting retains three source clusters (1, 2, 3) and the false setting two
(2, 3) — one fewer, not the claimed two fewer. -/
theorem c2_counterexample_one_fewer :
    readPair [10, 20, 30] [3, 1, 2, 1] true =
      Except.ok ⟨[1, 2, 3], [[10, 30], [20], []]⟩ ∧
    readPair [10, 20, 30] [3, 1, 2, 1] false =
      Except.ok ⟨[1, 2], [[20], []]⟩ ∧
    ([1, 2, 3] : List Int).length ≠ ([1, 2] : List Int).length + 2 := by
  exact ⟨by decide, by decide, by decide⟩

/-- C2 amended: after the n_clu adjustment (whose success is assumed, since
the comparison can raise), with keep_mua_units true the unit ids are
1 .. n_clu - 1 and output unit k holds exactly the res values whose aligned
clu entry equals k in file order; with false the unit ids are 1 .. n_clu - 2
and output unit k holds the res values aligned with source cluster k + 1;
whenever the true setting retains at least one unit, the false setting
retains exactly ONE fewer source cluster than the true setting (not two). -/
theorem c2_amended_selection_and_one_fewer
    (res : List Int) (n0 : Int) (tail : List Int) (st st' : NeuroSorting)
    (hres : res ≠ [])
    (htrue : readPair res (n0 :: tail) true = Except.ok st)
    (hfalse : readPair res (n0 :: tail) false = Except.ok st')
    (hone : st.unit_ids ≠ []) :
    ∃ N, adjustNClu n0 (npUnique tail) = Except.ok N ∧
      st.unit_ids = rangeFrom1 (N - 1) ∧
      st'.unit_ids = rangeFrom1 (N - 2) ∧
      List.Forall₂ (fun k t => t = specAlignedSpikes res tail k)
        st.unit_ids st.spiketrains ∧
      List.Forall₂ (fun k t => t = specAlignedSpikes res tail (k + 1))
        st'.unit_ids st'.spiketrains ∧
      st.unit_ids.length = st'.unit_ids.length + 1 := by
  rcases readPair_ok_true hres htrue with ⟨N, hN, hids, htr⟩
  rcases readPair_ok_false hres hfalse with ⟨N', hN', hids', htr'⟩
  have hNN : N' = N := by
    rw [hN] at hN'
    injection hN' with h2
    exact h2.symm
  rw [hNN] at hids' htr'
  refine ⟨N, hN, hids, hids', ?_, ?_, ?_⟩
  · rw [hids]
    exact htr.imp (fun a b hab => npTakeIdx_aligned hab)
  · rw [hids']
    exact htr'.imp (fun a b hab => npTakeIdx_aligned hab)
  · rw [hids, hids', rangeFrom1_length, rangeFrom1_length]
    have hpos : 1 ≤ (N - 1).toNat := by
      by_contra hlt
      apply hone
      rw [hids]
      unfold rangeFrom1
      have : (N - 1).toNat = 0 := by omega
      rw [this]
      rfl
    omega

/-- C2 amended, witness at res = [10, 20, 30], clu = [3, 1, 2, 1]. -/
theorem c2_amended_selection_witness :
    ∃ N, adjustNClu 3 (npUnique [1, 2, 1]) = Except.ok N ∧
      (⟨[1, 2, 3], [[10, 30], [20], []]⟩ : NeuroSorting).unit_ids = rangeFrom1 (N - 1) ∧
      (⟨[1, 2], [[20], []]⟩ : NeuroSorting).unit_ids = rangeFrom1 (N - 2) ∧
      List.Forall₂ (fun k t => t = specAlignedSpikes [10, 20, 30] [1, 2, 1] k)
        (⟨[1, 2, 3], [[10, 30], [20], []]⟩ : NeuroSorting).unit_ids
        (⟨[1, 2, 3], [[10, 30], [20], []]⟩ : NeuroSorting).spiketrains ∧
      List.Forall₂ (fun k t => t = specAlignedSpikes [10, 20, 30] [1, 2, 1] (k + 1))
        (⟨[1, 2], [[20], []]⟩ : NeuroSorting).unit_ids
        (⟨[1, 2], [[20], []]⟩ : NeuroSorting).spiketrains ∧
      (⟨[1, 2, 3], [[10, 30], [20], []]⟩ : NeuroSorting).unit_ids.length =
        (⟨[1, 2], [[20], []]⟩ : NeuroSorting).unit_ids.length + 1 :=
  c2_amended_selection_and_one_fewer [10, 20, 30] 3 [1, 2, 1]
    ⟨[1, 2, 3], [[10, 30], [20], []]⟩ ⟨[1, 2], [[20], []]⟩
    (by decide) (by decide) (by decide) (by decide)

lemma map_getD_range {α : Type} [Inhabited α] (l : List α) (d : α) :
    (List.range l.length).map (fun i => l.getD i d) = l := by
  apply List.ext_getElem
  · simp
  · intro i h1 h2
    simp only [List.getElem_map, List.getElem_range]
    exact List.getD_eq_getElem l d h2

lemma getD_zip {a b : List Int} {i : Nat} (h : i < a.length) (hlen : b.length = a.length) :
    (a.zip b).getD i (0, 0) = (a.getD i 0, b.getD i 0) := by
  have hz : i < (a.zip b).length := by
    rw [List.length_zip]
    omega
  rw [List.getD_eq_getElem _ _ hz, List.getElem_zip, List.getD_eq_getElem _ _ h,
    List.getD_eq_getElem _ _ (by omega : i < b.length)]

lemma writeSpikeArrays_fst_pairwise (ts : List (List Int)) :
    List.Pairwise (· ≤ ·) (writeSpikeArrays ts).1 :=
  npIndex_pairwise_le (npArgsort_sorted ts.flatten)

lemma writeSpikeArrays_zip_perm (ts : List (List Int)) :
    List.Perm ((writeSpikeArrays ts).1.zip (writeSpikeArrays ts).2)
      (specLabelledSpikes ts) := by
  have hlen0 : ((ts.enum.map (fun p => List.replicate p.2.length ((p.1 : Int) + 1))).flatten).length =
      ts.flatten.length := labels_flatten_length ts 0
  set res0 := ts.flatten with hres0
  set clu0 := (ts.enum.map (fun p => List.replicate p.2.length ((p.1 : Int) + 1))).flatten with hclu0
  set s := npArgsort res0 with hs
  have hzip : (npIndex res0 s).zip (npIndex clu0 s) =
      s.map (fun i => (res0.getD i 0, clu0.getD i 0)) := List.zip_map' _ _ s
  have hcongr : s.map (fun i => (res0.getD i 0, clu0.getD i 0)) =
      s.map (fun i => (res0.zip clu0).getD i (0, 0)) := by
    apply List.map_congr_left
    intro i hi
    exact (getD_zip (npArgsort_mem_lt hi) hlen0).symm
  have hperm : List.Perm (s.map (fun i => (res0.zip clu0).getD i (0, 0)))
      ((List.range res0.length).map (fun i => (res0.zip clu0).getD i (0, 0))) :=
    (npArgsort_perm res0).map _
  have hrange : (List.range res0.length).map (fun i => (res0.zip clu0).getD i (0, 0)) =
      res0.zip clu0 := by
    have hzl : (res0.zip clu0).length = res0.length := by
      rw [List.length_zip]
      omega
    rw [← hzl]
    exact map_getD_range _ _
  have hspec : res0.zip clu0 = specLabelledSpikes ts := labels_flatten_zip ts 0
  show List.Perm ((npIndex res0 s).zip (npIndex clu0 s)) (specLabelledSpikes ts)
  rw [hzip, hcongr]
  refine hperm.trans ?_
  rw [hrange, hspec]

lemma write_sorting_eq (ts : List (List Int)) (hne : ts ≠ [])
    (hnn : ∀ t ∈ ts, ∀ x ∈ t, 0 ≤ x) :
    write_sorting ⟨rangeFrom1 ((ts.length : Nat) : Int), ts⟩ =
      Except.ok ((writeSpikeArrays ts).1,
        ((npUnique (writeSpikeArrays ts).2).length : Int) :: (writeSpikeArrays ts).2) := by
  have hfilter : ts.map (List.filter (fun t => decide (0 ≤ t))) = ts := by
    have hpt : ∀ t ∈ ts, t.filter (fun x => decide (0 ≤ x)) = t := by
      intro t ht
      rw [List.filter_eq_self]
      intro a ha
      simpa using hnn t ht a ha
    rw [List.map_congr_left hpt]
    exact List.map_id' ts
  have hget : exceptMap (get_unit_spike_train ⟨rangeFrom1 ((ts.length : Nat) : Int), ts⟩)
      (rangeFrom1 ((ts.length : Nat) : Int)) = Except.ok ts := by
    rw [exceptMap_get_trains ts, hfilter]
  have hpos : (rangeFrom1 ((ts.length : Nat) : Int)).length > 0 := by
    rw [rangeFrom1_length]
    rcases ts with _ | ⟨t, ts'⟩
    · exact absurd rfl hne
    · simp
  unfold write_sorting
  simp only
  rw [if_pos hpos, hget]
  simp [Bind.bind, Except.bind, Pure.pure, Except.pure]

/-- C4: for every well-formed collection (contiguous unit ids, spike times
being sample indices, at least one unit), write_sorting concatenates all
units' spike times with unit at position i contributing cluster label i + 1,
reorders the (time, label) pairs into a jointly time-sorted order (so the
emitted times are globally non-decreasing and the pairing is preserved as a
multiset), and writes as the clu header the count of distinct cluster
labels actually present in the emitted body. -/
theorem c4_write_canonical (st : NeuroSorting)
    (hwf : st.unit_ids = rangeFrom1 ((st.spiketrains.length : Nat) : Int))
    (hne : st.spiketrains ≠ [])
    (hnn : ∀ t ∈ st.spiketrains, ∀ x ∈ t, 0 ≤ x) :
    ∃ res body : List Int,
      write_sorting st = Except.ok (res, ((body.toFinset.card : Nat) : Int) :: body) ∧
      List.Pairwise (· ≤ ·) res ∧
      List.Perm (res.zip body) (specLabelledSpikes st.spiketrains) := by
  obtain ⟨ids, ts⟩ := st
  dsimp only at hwf hne hnn ⊢
  subst hwf
  refine ⟨(writeSpikeArrays ts).1, (writeSpikeArrays ts).2, ?_,
    writeSpikeArrays_fst_pairwise ts, writeSpikeArrays_zip_perm ts⟩
  rw [write_sorting_eq ts hne hnn, npUnique_length_eq_card]

/-- C4, witness: the spec's scenario C collection {1 : [50, 10], 2 : [30]}. -/
theorem c4_write_canonical_witness :
    ∃ res body : List Int,
      write_sorting ⟨[1, 2], [[50, 10], [30]]⟩ =
        Except.ok (res, ((body.toFinset.card : Nat) : Int) :: body) ∧
      List.Pairwise (· ≤ ·) res ∧
      List.Perm (res.zip body)
        (specLabelledSpikes (⟨[1, 2], [[50, 10], [30]]⟩ : NeuroSorting).spiketrains) :=
  c4_write_canonical ⟨[1, 2], [[50, 10], [30]]⟩ (by decide) (by decide) (by decide)

lemma labelled_snd_ge : ∀ (ts : List (List Int)) (k0 : Nat) (q : Int × Int),
    q ∈ ((ts.enumFrom k0).map (fun p => p.2.map (fun t => (t, (p.1 : Int) + 1)))).flatten →
    (k0 : Int) + 1 ≤ q.2 := by
  intro ts
  induction ts with
  | nil => intro k0 q h; cases h
  | cons t ts ih =>
    intro k0 q h
    have e1 : (t :: ts).enumFrom k0 = (k0, t) :: ts.enumFrom (k0 + 1) := rfl
    rw [e1, List.map_cons, List.flatten_cons, List.mem_append] at h
    rcases h with h | h
    · rcases List.mem_map.mp h with ⟨x, _, rfl⟩
      simp
    · have := ih (k0 + 1) q h
      push_cast at this ⊢
      omega

lemma labelled_filter_block : ∀ (ts : List (List Int)) (k0 j : Nat), j < ts.length →
    ((((ts.enumFrom k0).map (fun p => p.2.map (fun t => (t, (p.1 : Int) + 1)))).flatten.filter
        (fun q => q.2 == ((k0 + j : Nat) : Int) + 1)).map Prod.fst) = ts.getD j [] := by
  intro ts
  induction ts with
  | nil => intro k0 j hj; cases hj
  | cons t ts ih =>
    intro k0 j hj
    have e1 : (t :: ts).enumFrom k0 = (k0, t) :: ts.enumFrom (k0 + 1) := rfl
    rw [e1, List.map_cons, List.flatten_cons, List.filter_append, List.map_append]
    cases j with
    | zero =>
      have hblock : (t.map (fun x => (x, (k0 : Int) + 1))).filter
          (fun q => q.2 == ((k0 + 0 : Nat) : Int) + 1) = t.map (fun x => (x, (k0 : Int) + 1)) := by
        rw [List.filter_eq_self]
        intro a ha
        rcases List.mem_map.mp ha with ⟨x, _, rfl⟩
        simp
      have hrest : (((ts.enumFrom (k0 + 1)).map
          (fun p => p.2.map (fun t => (t, (p.1 : Int) + 1)))).flatten.filter
            (fun q => q.2 == ((k0 + 0 : Nat) : Int) + 1)) = [] := by
        rw [List.filter_eq_nil_iff]
        intro q hq
        have := labelled_snd_ge ts (k0 + 1) q hq
        simp only [beq_iff_eq]
        push_cast at this ⊢
        omega
      rw [hblock, hrest, List.map_nil, List.append_nil, List.map_map]
      exact List.map_id' t
    | succ j' =>
      have hblock : (t.map (fun x => (x, (k0 : Int) + 1))).filter
          (fun q => q.2 == ((k0 + (j' + 1) : Nat) : Int) + 1) = [] := by
        rw [List.filter_eq_nil_iff]
        intro q hq
        rcases List.mem_map.mp hq with ⟨x, _, rfl⟩
        simp only [beq_iff_eq]
        push_cast
        omega
      rw [hblock, List.map_nil, List.nil_append]
      have hcast : ((k0 + (j' + 1) : Nat) : Int) + 1 = (((k0 + 1) + j' : Nat) : Int) + 1 := by
        push_cast
        ring
      rw [hcast, ih (k0 + 1) j' (by simpa using hj)]
      rfl

lemma mem_labels_flatten {ts : List (List Int)} (hne : ∀ t ∈ ts, t ≠ []) :
    ∀ (k0 : Nat) (x : Int),
      (x ∈ ((ts.enumFrom k0).map (fun p => List.replicate p.2.length ((p.1 : Int) + 1))).flatten ↔
        (k0 : Int) + 1 ≤ x ∧ x ≤ (k0 : Int) + ts.length) := by
  induction ts with
  | nil =>
    intro k0 x
    simp only [List.length_nil]
    constructor
    · intro h
      cases h
    · intro ⟨h1, h2⟩
      push_cast at h2
      omega
  | cons t ts ih =>
    intro k0 x
    have e1 : (t :: ts).enumFrom k0 = (k0, t) :: ts.enumFrom (k0 + 1) := rfl
    rw [e1, List.map_cons, List.flatten_cons, List.mem_append, List.mem_replicate]
    have htne : t ≠ [] := hne t (List.mem_cons_self _ _)
    have hts : ∀ u ∈ ts, u ≠ [] := fun u hu => hne u (List.mem_cons_of_mem _ hu)
    rw [ih hts (k0 + 1) x]
    have hlen : t.length ≠ 0 := by
      rcases t with _ | _
      · exact absurd rfl htne
      · simp
    constructor
    · rintro (⟨_, rfl⟩ | ⟨h1, h2⟩)
      · dsimp only
        constructor
        · omega
        · simp only [List.length_cons]
          push_cast
          omega
      · constructor
        · push_cast at h1 ⊢
          omega
        · push_cast at h2 ⊢
          simp only [List.length_cons]
          push_cast
          omega
    · intro ⟨h1, h2⟩
      simp only [List.length_cons] at h2
      by_cases hx : x = (k0 : Int) + 1
      · exact Or.inl ⟨hlen, hx⟩
      · right
        push_cast at h2 ⊢
        omega

lemma npTakeIdx_ok_intro {l : List Int} {idxs : List Nat} (h : ∀ i ∈ idxs, i < l.length) :
    npTakeIdx l idxs = Except.ok (idxs.map (fun i => l.getD i 0)) := by
  unfold npTakeIdx
  rw [exceptMap_ok_iff]
  induction idxs with
  | nil => exact List.Forall₂.nil
  | cons i rest ih =>
    refine List.Forall₂.cons ?_ (ih (fun j hj => h j (List.mem_cons_of_mem _ hj)))
    rw [if_pos (h i (List.mem_cons_self _ _))]

lemma specAligned_mem {res tail : List Int} {k x : Int}
    (h : x ∈ specAlignedSpikes res tail k) : x ∈ res := by
  unfold specAlignedSpikes at h
  rcases List.mem_map.mp h with ⟨q, hq, rfl⟩
  exact (List.of_mem_zip (List.mem_of_mem_filter hq)).1

lemma specAligned_pairwise {res2 body : List Int} (hlen : body.length = res2.length)
    (hp : List.Pairwise (· ≤ ·) res2) (k : Int) :
    List.Pairwise (· ≤ ·) (specAlignedSpikes res2 body k) := by
  unfold specAlignedSpikes
  rw [List.pairwise_map]
  apply List.Pairwise.filter
  have hfst : (res2.zip body).map Prod.fst = res2 := List.map_fst_zip _ _ (by omega)
  rw [← hfst, List.pairwise_map] at hp
  exact hp

lemma writeSpikeArrays_snd_perm (ts : List (List Int)) :
    List.Perm (writeSpikeArrays ts).2
      ((ts.enum.map (fun p => List.replicate p.2.length ((p.1 : Int) + 1))).flatten) := by
  have hlen0 : ((ts.enum.map (fun p => List.replicate p.2.length ((p.1 : Int) + 1))).flatten).length =
      ts.flatten.length := labels_flatten_length ts 0
  apply npIndex_perm
  rw [hlen0]
  exact npArgsort_perm ts.flatten

lemma writeSpikeArrays_lengths (ts : List (List Int)) :
    (writeSpikeArrays ts).1.length = ts.flatten.length ∧
      (writeSpikeArrays ts).2.length = ts.flatten.length := by
  constructor <;>
  · show (List.map _ (npArgsort ts.flatten)).length = _
    rw [List.length_map, (npArgsort_perm ts.flatten).length_eq, List.length_range]

lemma flatten_ne_nil {ts : List (List Int)} (hts : ts ≠ [])
    (hne : ∀ t ∈ ts, t ≠ []) : ts.flatten ≠ [] := by
  rcases ts with _ | ⟨t, ts'⟩
  · exact absurd rfl hts
  · have ht : t ≠ [] := hne t (List.mem_cons_self _ _)
    rcases t with _ | ⟨x, t'⟩
    · exact absurd rfl ht
    · simp

lemma npUnique_body_eq {ts : List (List Int)} (hts : ts ≠ [])
    (hne : ∀ t ∈ ts, t ≠ []) :
    npUnique (writeSpikeArrays ts).2 = rangeFrom1 ((ts.length : Nat) : Int) := by
  apply npUnique_eq_sorted_nodup (rangeFrom1_sorted _) (rangeFrom1_nodup _)
  intro x
  rw [(writeSpikeArrays_snd_perm ts).mem_iff, mem_rangeFrom1]
  have := mem_labels_flatten hne 0 x
  rw [show ts.enumFrom 0 = ts.enum from rfl] at this
  rw [this]
  push_cast
  omega

lemma adjust_second_read {ts : List (List Int)} (hts2 : 2 ≤ ts.length)
    (hne : ∀ t ∈ ts, t ≠ []) :
    adjustNClu ((ts.length : Nat) : Int) (npUnique (writeSpikeArrays ts).2) =
      Except.ok (((ts.length : Nat) : Int) + 1) := by
  have hts : ts ≠ [] := by
    rcases ts with _ | _
    · simp at hts2
    · simp
  rw [npUnique_body_eq hts hne]
  rw [adjustNClu_of_shape_mismatch (by rw [rangeFrom1_length]; omega)
    (by rw [rangeFrom1_length]; omega) (by omega)]
  have h0 : ¬ ((rangeFrom1 ((ts.length : Nat) : Int)).contains 0 = true) := by
    rw [List.elem_iff, mem_rangeFrom1]
    omega
  have h1 : (rangeFrom1 ((ts.length : Nat) : Int)).contains 1 = true := by
    apply List.elem_eq_true_of_mem
    rw [mem_rangeFrom1]
    omega
  rw [if_neg h0, if_pos h1, add_zero]

lemma exceptMap_takeIdx_aligned {res2 body : List Int} (hlen : body.length = res2.length)
    (ids : List Int) :
    exceptMap (fun s_id => npTakeIdx res2 (npNonzeroEq body s_id)) ids =
      Except.ok (ids.map (fun s_id => specAlignedSpikes res2 body s_id)) := by
  rw [exceptMap_ok_iff]
  induction ids with
  | nil => exact List.Forall₂.nil
  | cons s rest ih =>
    refine List.Forall₂.cons ?_ ih
    have hb : ∀ i ∈ npNonzeroEq body s, i < res2.length := by
      intro i hi
      have := npNonzeroEq_lt hi
      omega
    rw [npTakeIdx_ok_intro hb, map_getD_npNonzeroEq hb]

lemma specAligned_roundtrip {ts : List (List Int)} (i : Nat) (hi : i < ts.length) :
    List.Perm
      (specAlignedSpikes (writeSpikeArrays ts).1 (writeSpikeArrays ts).2 ((i : Int) + 1))
      (ts.getD i []) := by
  have hperm := (writeSpikeArrays_zip_perm ts).filter (fun q => q.2 == (i : Int) + 1)
  have hmap := hperm.map Prod.fst
  have hblock := labelled_filter_block ts 0 i hi
  rw [show ((0 + i : Nat) : Int) + 1 = (i : Int) + 1 from by push_cast; ring] at hblock
  rw [show ts.enumFrom 0 = ts.enum from rfl] at hblock
  unfold specLabelledSpikes at hmap
  rw [hblock] at hmap
  exact hmap

lemma forall₂_mem_right {α β : Type} {R : α → β → Prop} {l₁ : List α} {l₂ : List β}
    (h : List.Forall₂ R l₁ l₂) : ∀ b ∈ l₂, ∃ a ∈ l₁, R a b := by
  induction h with
  | nil =>
    intro b hb
    cases hb
  | cons hab htl ih =>
    intro b hb
    rcases List.mem_cons.mp hb with rfl | hb'
    · exact ⟨_, List.mem_cons_self _ _, hab⟩
    · rcases ih b hb' with ⟨a, ha, hr⟩
      exact ⟨a, List.mem_cons_of_mem _ ha, hr⟩

/-- C3 amended: for every non-empty res/clu pair with matching line counts
and non-negative sample indices on which Read(keep_mua_units=true) succeeds
with at least two units, all of whose spike trains are non-empty, the
composition Read then Write then Read yields a collection with the same
unit ids in which every unit's spike train is an ascending-sorted
permutation of that unit's original spike multiset. -/
theorem c3_roundtrip_amended
    (res : List Int) (n0 : Int) (tail : List Int) (st : NeuroSorting)
    (hres : res ≠ [])
    (hcount : res.length = tail.length)
    (hnn : ∀ x ∈ res, 0 ≤ x)
    (hread : readPair res (n0 :: tail) true = Except.ok st)
    (hunits : 2 ≤ st.unit_ids.length)
    (htrne : ∀ t ∈ st.spiketrains, t ≠ []) :
    ∃ res2 clu2 st2,
      write_sorting st = Except.ok (res2, clu2) ∧
      readPair res2 clu2 true = Except.ok st2 ∧
      st2.unit_ids = st.unit_ids ∧
      List.Forall₂ (fun t t2 => List.Perm t2 t ∧ List.Pairwise (· ≤ ·) t2)
        st.spiketrains st2.spiketrains := by
  rcases readPair_ok_true hres hread with ⟨N, hN, hids, htr⟩
  obtain ⟨ids, ts⟩ := st
  dsimp only at hids htr hunits htrne ⊢
  subst hids
  have hlen : ts.length = (N - 1).toNat := by
    rw [← htr.length_eq, rangeFrom1_length]
  have hids_to : rangeFrom1 (N - 1) = rangeFrom1 ((ts.length : Nat) : Int) := by
    rw [hlen, rangeFrom1_toNat]
  have hsel : List.Forall₂ (fun k t => t = specAlignedSpikes res tail k)
      (rangeFrom1 (N - 1)) ts :=
    htr.imp (fun a b hab => npTakeIdx_aligned hab)
  have hnn_ts : ∀ t ∈ ts, ∀ x ∈ t, 0 ≤ x := by
    intro t ht x hx
    rcases forall₂_mem_right hsel t ht with ⟨k, _, hk⟩
    subst hk
    exact hnn x (specAligned_mem hx)
  have hts2 : 2 ≤ ts.length := by
    rw [rangeFrom1_length] at hunits
    omega
  have hts_ne : ts ≠ [] := by
    intro hcon
    rw [hcon] at hts2
    simp at hts2
  have hwrite := write_sorting_eq ts hts_ne hnn_ts
  have hlens := writeSpikeArrays_lengths ts
  have hlen2 : (writeSpikeArrays ts).2.length = (writeSpikeArrays ts).1.length := by
    rw [hlens.1, hlens.2]
  have hheader : (((npUnique (writeSpikeArrays ts).2).length : Nat) : Int) =
      ((ts.length : Nat) : Int) := by
    rw [npUnique_body_eq hts_ne htrne, rangeFrom1_length]
    simp
  have hres2ne : (writeSpikeArrays ts).1 ≠ [] := by
    have hfl := flatten_ne_nil hts_ne htrne
    intro hcon
    apply hfl
    have h0 : (writeSpikeArrays ts).1.length = 0 := by
      rw [hcon]
      rfl
    rw [hlens.1] at h0
    exact List.length_eq_zero.mp h0
  have hsimp : ((ts.length : Nat) : Int) + 1 - 1 = ((ts.length : Nat) : Int) := by ring
  have hread2 : readPair (writeSpikeArrays ts).1
      (((ts.length : Nat) : Int) :: (writeSpikeArrays ts).2) true =
      Except.ok ⟨rangeFrom1 ((ts.length : Nat) : Int),
        (rangeFrom1 ((ts.length : Nat) : Int)).map
          (fun s_id => specAlignedSpikes (writeSpikeArrays ts).1 (writeSpikeArrays ts).2 s_id)⟩ := by
    have hintro := readPair_ok_true_intro hres2ne (adjust_second_read hts2 htrne)
      (exceptMap_takeIdx_aligned hlen2 (rangeFrom1 (((ts.length : Nat) : Int) + 1 - 1)))
    rw [hsimp] at hintro
    exact hintro
  refine ⟨(writeSpikeArrays ts).1, ((ts.length : Nat) : Int) :: (writeSpikeArrays ts).2,
    ⟨rangeFrom1 ((ts.length : Nat) : Int),
      (rangeFrom1 ((ts.length : Nat) : Int)).map
        (fun s_id => specAlignedSpikes (writeSpikeArrays ts).1 (writeSpikeArrays ts).2 s_id)⟩,
    ?_, hread2, ?_, ?_⟩
  · rw [hids_to, hwrite, hheader]
  · dsimp only
    exact hids_to.symm
  · dsimp only
    rw [List.forall₂_iff_get]
    constructor
    · rw [List.length_map, rangeFrom1_length]
      omega
    · intro i h₁ h₂
      rw [List.get_map, rangeFrom1_get]
      have hi : i < ts.length := h₁
      constructor
      · have := @specAligned_roundtrip ts i hi
        rw [getD_eq_get ts i hi] at this
        exact this
      · exact specAligned_pairwise hlen2 (writeSpikeArrays_fst_pairwise ts) _

/-- C3 counterexample: on the non-empty matching pair res = [10, 20],
clu = [2, 0, 1] (all times non-negative), Read(keep_mua_units=true)
succeeds with one unit, Write succeeds, but the final Read raises
ValueError instead of returning the sorted spike trains, so the round trip
fails as claimed for all inputs. -/
theorem c3_counterexample_roundtrip_crashes :
    readPair [10, 20] [2, 0, 1] true = Except.ok ⟨[1], [[20]]⟩ ∧
    write_sorting ⟨[1], [[20]]⟩ = Except.ok ([20], [1, 1]) ∧
    readPair [20] [1, 1] true = Except.error PyError.valueError := by
  exact ⟨by decide, by decide, by decide⟩

/-- C3 amended, witness: res = [30, 10, 20, 40], clu = [2, 1, 2, 1, 2] reads
as two non-empty units and round-trips to their sorted permutations. -/
theorem c3_roundtrip_amended_witness :
    ∃ res2 clu2 st2,
      write_sorting ⟨[1, 2], [[30, 20], [10, 40]]⟩ = Except.ok (res2, clu2) ∧
      readPair res2 clu2 true = Except.ok st2 ∧
      st2.unit_ids = (⟨[1, 2], [[30, 20], [10, 40]]⟩ : NeuroSorting).unit_ids ∧
      List.Forall₂ (fun t t2 => List.Perm t2 t ∧ List.Pairwise (· ≤ ·) t2)
        (⟨[1, 2], [[30, 20], [10, 40]]⟩ : NeuroSorting).spiketrains st2.spiketrains :=
  c3_roundtrip_amended [30, 10, 20, 40] 2 [1, 2, 1, 2] ⟨[1, 2], [[30, 20], [10, 40]]⟩
    (by decide) (by decide) (by decide) (by decide) (by decide) (by decide)
